import Mathlib

/-! Shallow embedding of the PromoOpción → Shopify synchronization core
(`sync_manager.py`, `shopify_client.py`): the pricing policy, the
per-product reconciliation (create product / update variant price /
delete discontinued variant) and the orchestration loop, together with
theorems checking the specification's claims against these definitions. -/

namespace PromoSync

/-- Outcome of `float(hijo.get('precio', 0))` in the Python sources: the
`precio` field can be absent (`missing`; Python then converts the default
`0`), present but unparseable (`malformed`; `float` raises `ValueError` /
`TypeError`), or parseable to a number `q`. -/
inductive RawPrice where
  | missing : RawPrice
  | malformed : RawPrice
  | num : ℚ → RawPrice
deriving DecidableEq, Repr

/-- A supplier ("hijo") variant record, as consumed by
`SyncManager.run_full_sync` and `ShopifyClient.create_product`. -/
structure SupplierVariant where
  skuHijo : String
  precio : RawPrice
  estatus : String
  color : String
  imagenesHijo : List String
deriving DecidableEq, Repr

/-- A supplier ("padre") product record from the PromoOpción catalog. -/
structure SupplierProduct where
  nombrePadre : String
  descripcion : String
  categorias : String
  subCategorias : String
  imagenesPadre : List String
  hijos : List SupplierVariant
deriving DecidableEq, Repr

/-- A destination (Shopify) variant as returned by
`get_variants_for_product`: numeric ids are kept as strings, and the
stored string price is modelled by the rational it parses to. -/
structure DestVariant where
  id : String
  product_id : String
  sku : String
  price : ℚ
deriving DecidableEq, Repr

/-- Result record of `find_product_variant_by_sku` when a variant exists. -/
structure FoundInfo where
  variant_id : String
  product_id : String
  price : ℚ
deriving DecidableEq, Repr

/-- Pricing at the update-comparison site (`sync_manager.py` lines 75-79):
`new_price = (base_price * 0.77) / 0.60`, with `0.0` when the parse
raises; a missing `precio` goes through `float(0)` and then the formula. -/
def computeNewPrice : RawPrice → ℚ
  | RawPrice.num q => q * (77 / 100) / (60 / 100)
  | RawPrice.missing => 0 * (77 / 100) / (60 / 100)
  | RawPrice.malformed => 0

/-- Pricing at the creation site (`shopify_client.py` lines 136-142):
`special_price = base_price * 0.77; final_price = special_price / 0.60`,
with `0.0` when the parse raises. -/
def finalPriceOfHijo : RawPrice → ℚ
  | RawPrice.num q => q * (77 / 100) / (60 / 100)
  | RawPrice.missing => 0 * (77 / 100) / (60 / 100)
  | RawPrice.malformed => 0

/-- Two-decimal wire formatting applied exactly when a price is written to
the destination (the Python format spec with two decimal places, in
`variant.price` assignments), modelled as decimal rounding on rationals. -/
def round2 (q : ℚ) : ℚ := ((round (q * 100) : ℤ) : ℚ) / 100

/-- The value actually transmitted by `update_variant_price`, which
formats `new_price` to two decimals before saving. -/
def updateWirePrice (new_price : ℚ) : ℚ := round2 new_price

/-- Python dict assignment `d[k] = v`: replace the value in place when the
key is already bound, otherwise append the binding (insertion order is
preserved, as for Python 3.7+ dicts). -/
def dictInsert {α : Type} : List (String × α) → String → α → List (String × α)
  | [], k, v => [(k, v)]
  | e :: rest, k, v => if e.1 == k then (k, v) :: rest else e :: dictInsert rest k v

/-- Python dict comprehension over `xs` keyed by `key` (later entries with
the same key overwrite earlier values). -/
def dictOf {α : Type} (key : α → String) (xs : List α) : List (String × α) :=
  xs.foldl (fun d x => dictInsert d (key x) x) []

/-- Python dict lookup `d[k]`, as an `Option`. -/
def dictGet {α : Type} (d : List (String × α)) (k : String) : Option α :=
  (d.find? (fun e => e.1 == k)).map Prod.snd

/-- The key list of a modelled Python dict. -/
def dictKeys {α : Type} (d : List (String × α)) : List String := d.map Prod.fst

/-- `supplier_variants_active` from `sync_manager.py` lines 47-49: the dict
comprehension keeping only hijos whose `estatus` equals `"1"`. -/
def supplierVariantsActive (p : SupplierProduct) : List (String × SupplierVariant) :=
  dictOf (fun h => h.skuHijo) (p.hijos.filter (fun h => h.estatus == "1"))

/-- One reconciliation operation applied against the destination. -/
inductive Op where
  | createProduct : SupplierProduct → Op
  | updatePrice : String → ℚ → Op
  | deleteVariant : String → String → Op
deriving DecidableEq, Repr

/-- The price-update loop of `run_full_sync` (lines 70-84): for each active
supplier SKU found in the Shopify variants dict, compare the freshly
computed price against the stored price and update when the absolute
difference exceeds `0.01`. -/
def updateOps (by_sku : List (String × DestVariant))
    (active : List (String × SupplierVariant)) : List Op :=
  active.filterMap (fun kv =>
    match dictGet by_sku kv.1 with
    | some dv =>
        if (1 / 100 : ℚ) < |dv.price - computeNewPrice kv.2.precio| then
          some (Op.updatePrice dv.id (computeNewPrice kv.2.precio))
        else none
    | none => none)

/-- The deletion loop of `run_full_sync` (lines 86-94):
`skus_to_delete = shopify_skus - supplier_skus`; one delete per destination
variant whose SKU is not an active supplier SKU. Python iterates the set
difference in unspecified order; the dict order is used here and the
claims about deletions are stated up to membership. -/
def deleteOps (by_sku : List (String × DestVariant))
    (active : List (String × SupplierVariant)) : List Op :=
  (by_sku.filter (fun kv => kv.1 ∉ dictKeys active)).map
    (fun kv => Op.deleteVariant kv.2.product_id kv.2.id)

/-- The existing-product branch of `run_full_sync` (lines 63-94): build the
`{v.sku: v}` dict from the fetched Shopify variants, then run the update
loop followed by the delete loop. -/
def reconcileFound (shopify_variants : List DestVariant)
    (active : List (String × SupplierVariant)) : List Op :=
  updateOps (dictOf (fun v => v.sku) shopify_variants) active ++
    deleteOps (dictOf (fun v => v.sku) shopify_variants) active

/-- One variant of the payload built by `create_product` (lines 134-152):
note the loop runs over all `hijos`, with no `estatus` filter, and the
price is wire-formatted to two decimals. -/
structure CreatedVariant where
  option1 : String
  price : ℚ
  sku : String
deriving DecidableEq, Repr

/-- `create_product`'s per-hijo variant construction. -/
def mkCreatedVariant (hijo : SupplierVariant) : CreatedVariant :=
  { option1 := hijo.color
    price := round2 (finalPriceOfHijo hijo.precio)
    sku := hijo.skuHijo }

/-- `images` accumulated by `create_product` (lines 157-163): parent image
URLs followed by every hijo's image URLs. -/
def allImages (p : SupplierProduct) : List String :=
  p.imagenesPadre ++ p.hijos.flatMap (fun h => h.imagenesHijo)

/-- `unique_images` (line 166): Python deduplicates through a set of item
tuples, so the order of the result is unspecified; the deduplicated
content is modelled by `List.dedup`. -/
def uniqueImages (p : SupplierProduct) : List String := (allImages p).dedup

/-- The full product payload assembled by `create_product`. -/
structure CreatedProduct where
  title : String
  body_html : String
  product_type : String
  variants : List CreatedVariant
  images : List String
deriving DecidableEq, Repr

/-- `create_product`'s payload from a supplier product (lines 127-167). -/
def createProductPayload (p : SupplierProduct) : CreatedProduct :=
  { title := p.nombrePadre
    body_html := p.descripcion
    product_type := p.subCategorias
    variants := p.hijos.map mkCreatedVariant
    images := uniqueImages p }

/-- Per-product reconciliation (lines 47-94) given pure lookup functions
for the destination: skip when no active variant, create when the probe
SKU is unknown, otherwise diff the existing product. -/
def reconcileProduct (findSku : String → Option FoundInfo)
    (variantsOf : String → List DestVariant) (p : SupplierProduct) : List Op :=
  match (supplierVariantsActive p).head? with
  | none => []
  | some kv =>
      match findSku kv.1 with
      | none => [Op.createProduct p]
      | some info => reconcileFound (variantsOf info.product_id) (supplierVariantsActive p)

/-- Destination client model. `findSku` may raise (the Python client
re-raises exceptions from the GraphQL lookup, line 72); the create, update
and delete methods catch their own exceptions and report success as a
return value (`create_product` returns `None` on failure,
`update_variant_price` and `delete_product_variant` return `False`), so
they are modelled as total outcome functions. -/
structure Sink where
  findSku : String → Except String (Option FoundInfo)
  variantsOf : String → List DestVariant
  createOk : SupplierProduct → Bool
  updateOk : String → ℚ → Bool
  deleteOk : String → String → Bool

/-- Whether an applied operation succeeded, per the sink's outcome model. -/
def opOutcome (sink : Sink) : Op → Bool
  | Op.createProduct p => sink.createOk p
  | Op.updatePrice vid q => sink.updateOk vid q
  | Op.deleteVariant pid vid => sink.deleteOk pid vid

/-- Whether an `Except` result is a success. -/
def exceptOk {ε α : Type} : Except ε α → Bool
  | Except.ok _ => true
  | Except.error _ => false

/-- The product loop of `run_full_sync` (lines 43-94): each processed
product is recorded with its operations paired with their outcomes; a
raising `findSku` propagates to the catch-all handler at line 96, aborting
the loop (second component `true`). The orchestrator never inspects the
create/update/delete outcomes. -/
def processProducts (sink : Sink) : List SupplierProduct → List (SupplierProduct × List (Op × Bool)) × Bool
  | [] => ([], false)
  | p :: rest =>
      match (supplierVariantsActive p).head? with
      | none =>
          let r := processProducts sink rest
          ((p, []) :: r.1, r.2)
      | some kv =>
          match sink.findSku kv.1 with
          | Except.error _ => ([], true)
          | Except.ok found =>
              let ops : List Op :=
                match found with
                | none => [Op.createProduct p]
                | some info => reconcileFound (sink.variantsOf info.product_id) (supplierVariantsActive p)
              let r := processProducts sink rest
              ((p, ops.map (fun op => (op, opOutcome sink op))) :: r.1, r.2)

/-- The truncation at lines 36-40: `if product_limit:` is Python truthiness,
false both for `None` and for `0`. -/
def productsToProcess (product_limit : Option Nat)
    (all_products : List SupplierProduct) : List SupplierProduct :=
  match product_limit with
  | some n => if n ≠ 0 then all_products.take n else all_products
  | none => all_products

/-- `run_full_sync`: truncate per the limit, then run the product loop. -/
def runFullSync (sink : Sink) (product_limit : Option Nat)
    (all_products : List SupplierProduct) : List (SupplierProduct × List (Op × Bool)) × Bool :=
  processProducts sink (productsToProcess product_limit all_products)

/-- Every entry of a dict after an assignment is either the new binding or
an entry of the old dict. -/
theorem mem_dictInsert_elim {α : Type} {d : List (String × α)} {k : String} {v : α}
    {e : String × α} (h : e ∈ dictInsert d k v) : e = (k, v) ∨ e ∈ d := by
  induction d with
  | nil => simpa [dictInsert] using h
  | cons f rest ih =>
      by_cases hf : f.1 == k
      · rw [dictInsert, if_pos hf] at h
        rcases List.mem_cons.mp h with h | h
        · exact Or.inl h
        · exact Or.inr (List.mem_cons_of_mem _ h)
      · rw [dictInsert, if_neg hf] at h
        rcases List.mem_cons.mp h with h | h
        · exact Or.inr (h ▸ List.mem_cons_self _ _)
        · rcases ih h with h | h
          · exact Or.inl h
          · exact Or.inr (List.mem_cons_of_mem _ h)

/-- Key membership after a dict assignment. -/
theorem mem_dictKeys_dictInsert {α : Type} (d : List (String × α)) (k : String) (v : α)
    (a : String) : a ∈ dictKeys (dictInsert d k v) ↔ a = k ∨ a ∈ dictKeys d := by
  induction d with
  | nil => simp [dictInsert, dictKeys]
  | cons f rest ih =>
      by_cases hf : f.1 == k
      · have hf1 : f.1 = k := by simpa using hf
        rw [dictInsert, if_pos hf]
        simp [dictKeys, hf1]
      · rw [dictInsert, if_neg hf]
        simp only [dictKeys, List.map_cons, List.mem_cons] at ih ⊢
        rw [ih]
        tauto

/-- Dict assignment preserves key uniqueness. -/
theorem nodup_dictKeys_dictInsert {α : Type} {d : List (String × α)}
    (h : (dictKeys d).Nodup) (k : String) (v : α) :
    (dictKeys (dictInsert d k v)).Nodup := by
  induction d with
  | nil => simp [dictInsert, dictKeys]
  | cons f rest ih =>
      simp only [dictKeys, List.map_cons, List.nodup_cons] at h
      by_cases hf : f.1 == k
      · have hf1 : f.1 = k := by simpa using hf
        rw [dictInsert, if_pos hf]
        simp only [dictKeys, List.map_cons, List.nodup_cons]
        exact ⟨by simpa [hf1] using h.1, h.2⟩
      · have hf1 : ¬f.1 = k := by simpa using hf
        rw [dictInsert, if_neg hf]
        simp only [dictKeys, List.map_cons, List.nodup_cons]
        refine ⟨?_, ih h.2⟩
        show f.1 ∉ dictKeys (dictInsert rest k v)
        rw [mem_dictKeys_dictInsert]
        rintro (h1 | h1)
        · exact hf1 h1
        · exact h.1 h1

/-- A dict built by `dictOf` has pairwise-distinct keys. -/
theorem nodup_dictKeys_dictOf {α : Type} (key : α → String) (xs : List α) :
    (dictKeys (dictOf key xs)).Nodup := by
  have aux : ∀ (ys : List α) (acc : List (String × α)), (dictKeys acc).Nodup →
      (dictKeys (ys.foldl (fun d x => dictInsert d (key x) x) acc)).Nodup := by
    intro ys
    induction ys with
    | nil => intro acc h; exact h
    | cons y ys ih =>
        intro acc h
        exact ih _ (nodup_dictKeys_dictInsert h (key y) y)
  exact aux xs [] (by simp [dictKeys])

/-- Every entry of a dict built by `dictOf` comes from the source list and
is keyed by its own key. -/
theorem mem_dictOf_elim {α : Type} {key : α → String} {xs : List α}
    {e : String × α} (h : e ∈ dictOf key xs) : e.2 ∈ xs ∧ key e.2 = e.1 := by
  have aux : ∀ (ys : List α) (acc : List (String × α)) (f : String × α),
      f ∈ ys.foldl (fun d x => dictInsert d (key x) x) acc →
      f ∈ acc ∨ (f.2 ∈ ys ∧ key f.2 = f.1) := by
    intro ys
    induction ys with
    | nil => intro acc f hf; exact Or.inl hf
    | cons y ys ih =>
        intro acc f hf
        rcases ih _ f hf with h1 | h2
        · rcases mem_dictInsert_elim h1 with he | he
          · subst he
            exact Or.inr ⟨List.mem_cons_self _ _, rfl⟩
          · exact Or.inl he
        · exact Or.inr ⟨List.mem_cons_of_mem _ h2.1, h2.2⟩
  rcases aux xs [] e h with h1 | h2
  · simp at h1
  · exact h2

/-- A successful dict lookup returns an entry of the dict. -/
theorem dictGet_eq_some_mem {α : Type} {d : List (String × α)} {k : String} {v : α}
    (h : dictGet d k = some v) : (k, v) ∈ d := by
  unfold dictGet at h
  cases hf : d.find? (fun e => e.1 == k) with
  | none => rw [hf] at h; simp at h
  | some e =>
      rw [hf] at h
      simp only [Option.map] at h
      rw [Option.some_inj] at h
      have hm := List.mem_of_find?_eq_some hf
      have hp := List.find?_some hf
      have h1 : e.1 = k := by simpa using hp
      have : e = (k, v) := by
        cases e
        simp_all
      rwa [this] at hm

/-- On a dict with pairwise-distinct keys, membership of an entry means the
lookup of its key returns its value. -/
theorem mem_dictGet_of_nodup {α : Type} {d : List (String × α)}
    (hnd : (dictKeys d).Nodup) {k : String} {v : α} (h : (k, v) ∈ d) :
    dictGet d k = some v := by
  induction d with
  | nil => simp at h
  | cons e rest ih =>
      simp only [dictKeys, List.map_cons, List.nodup_cons] at hnd
      rcases List.mem_cons.mp h with he | hrest
      · rw [← he]
        simp [dictGet]
      · have hne : ¬e.1 = k := by
          intro hk
          exact hnd.1 (hk ▸ (by simpa [dictKeys] using List.mem_map_of_mem Prod.fst hrest))
        rw [dictGet, List.find?_cons_of_neg _ (by simpa using hne)]
        exact ih hnd.2 hrest

/-- Lookup characterization for dicts with pairwise-distinct keys. -/
theorem dictGet_iff_mem {α : Type} {d : List (String × α)}
    (hnd : (dictKeys d).Nodup) {k : String} {v : α} :
    dictGet d k = some v ↔ (k, v) ∈ d :=
  ⟨dictGet_eq_some_mem, mem_dictGet_of_nodup hnd⟩

/-- Membership characterization for the price-update loop. -/
theorem mem_updateOps {by_sku : List (String × DestVariant)}
    {active : List (String × SupplierVariant)} {vid : String} {q : ℚ} :
    Op.updatePrice vid q ∈ updateOps by_sku active ↔
      ∃ kv ∈ active, ∃ dv, dictGet by_sku kv.1 = some dv ∧ vid = dv.id ∧
        q = computeNewPrice kv.2.precio ∧
        (1 / 100 : ℚ) < |dv.price - computeNewPrice kv.2.precio| := by
  unfold updateOps
  rw [List.mem_filterMap]
  constructor
  · rintro ⟨kv, hkv, heq⟩
    refine ⟨kv, hkv, ?_⟩
    cases hget : dictGet by_sku kv.1 with
    | none => rw [hget] at heq; simp at heq
    | some dv =>
        rw [hget] at heq
        simp only at heq
        by_cases hc : (1 / 100 : ℚ) < |dv.price - computeNewPrice kv.2.precio|
        · rw [if_pos hc, Option.some_inj] at heq
          rcases Op.updatePrice.inj heq.symm with ⟨h1, h2⟩
          exact ⟨dv, rfl, h1, h2, hc⟩
        · rw [if_neg hc] at heq
          simp at heq
  · rintro ⟨kv, hkv, dv, hget, hvid, hq, hc⟩
    refine ⟨kv, hkv, ?_⟩
    rw [hget]
    simp only
    rw [if_pos hc, hvid, hq]

/-- Every operation produced by the update loop is a price update. -/
theorem mem_updateOps_shape {by_sku : List (String × DestVariant)}
    {active : List (String × SupplierVariant)} {op : Op}
    (h : op ∈ updateOps by_sku active) : ∃ vid q, op = Op.updatePrice vid q := by
  unfold updateOps at h
  rw [List.mem_filterMap] at h
  rcases h with ⟨kv, _, heq⟩
  cases hget : dictGet by_sku kv.1 with
  | none => rw [hget] at heq; simp at heq
  | some dv =>
      rw [hget] at heq
      simp only at heq
      by_cases hc : (1 / 100 : ℚ) < |dv.price - computeNewPrice kv.2.precio|
      · rw [if_pos hc, Option.some_inj] at heq
        exact ⟨dv.id, computeNewPrice kv.2.precio, heq.symm⟩
      · rw [if_neg hc] at heq
        simp at heq

/-- Membership characterization for the deletion loop. -/
theorem mem_deleteOps {by_sku : List (String × DestVariant)}
    {active : List (String × SupplierVariant)} {pid vid : String} :
    Op.deleteVariant pid vid ∈ deleteOps by_sku active ↔
      ∃ kv ∈ by_sku, kv.1 ∉ dictKeys active ∧
        pid = kv.2.product_id ∧ vid = kv.2.id := by
  unfold deleteOps
  rw [List.mem_map]
  constructor
  · rintro ⟨kv, hkv, heq⟩
    rw [List.mem_filter] at hkv
    rcases Op.deleteVariant.inj heq.symm with ⟨h1, h2⟩
    exact ⟨kv, hkv.1, by simpa using hkv.2, h1, h2⟩
  · rintro ⟨kv, hkv, hnot, h1, h2⟩
    refine ⟨kv, ?_, by rw [h1, h2]⟩
    rw [List.mem_filter]
    exact ⟨hkv, by simpa using hnot⟩

/-- Every operation produced by the deletion loop is a variant deletion. -/
theorem mem_deleteOps_shape {by_sku : List (String × DestVariant)}
    {active : List (String × SupplierVariant)} {op : Op}
    (h : op ∈ deleteOps by_sku active) : ∃ pid vid, op = Op.deleteVariant pid vid := by
  unfold deleteOps at h
  rw [List.mem_map] at h
  rcases h with ⟨kv, _, heq⟩
  exact ⟨kv.2.product_id, kv.2.id, heq.symm⟩

/-- C1: for every numeric basePrice the computed sale price is exactly
basePrice * (1 - 0.23) / (1 - 0.40) = basePrice * 0.77 / 0.60, with no
rounding inside the formula; the two-decimal rounding happens only at the
transmission points (the update wire value and the created variant's
price field are the rounded formula result). -/
theorem C1_pricing_formula (b : ℚ) :
    computeNewPrice (RawPrice.num b) = b * (1 - 23 / 100) / (1 - 40 / 100) ∧
    computeNewPrice (RawPrice.num b) = b * (77 / 100) / (60 / 100) ∧
    finalPriceOfHijo (RawPrice.num b) = computeNewPrice (RawPrice.num b) ∧
    updateWirePrice (computeNewPrice (RawPrice.num b)) = round2 (b * (77 / 100) / (60 / 100)) ∧
    ∀ (sk es co : String) (im : List String),
      (mkCreatedVariant ⟨sk, RawPrice.num b, es, co, im⟩).price =
        round2 (b * (77 / 100) / (60 / 100)) := by
  refine ⟨by norm_num [computeNewPrice], rfl, rfl, rfl, ?_⟩
  intro sk es co im
  rfl

/-- C8: a missing or unparseable basePrice yields the fail-open price 0 at
both computation sites (update comparison and product creation), and the
transmitted created price is 0.00 as well; both functions are total, so
processing continues rather than raising. -/
theorem C8_fail_open (r : RawPrice)
    (h : r = RawPrice.missing ∨ r = RawPrice.malformed) :
    computeNewPrice r = 0 ∧ finalPriceOfHijo r = 0 ∧ round2 (finalPriceOfHijo r) = 0 := by
  rcases h with h | h <;> subst h <;>
    refine ⟨by norm_num [computeNewPrice], by norm_num [finalPriceOfHijo], ?_⟩ <;>
    norm_num [finalPriceOfHijo, round2]

/-- Witness for C8 at the concrete input `RawPrice.missing`. -/
theorem C8_fail_open_witness :
    (RawPrice.missing = RawPrice.missing ∨ RawPrice.missing = RawPrice.malformed) ∧
    (computeNewPrice RawPrice.missing = 0 ∧ finalPriceOfHijo RawPrice.missing = 0 ∧
      round2 (finalPriceOfHijo RawPrice.missing) = 0) :=
  ⟨Or.inl rfl, C8_fail_open RawPrice.missing (Or.inl rfl)⟩

/-- C9: the image list attached to a create payload has no duplicates and,
as a set, equals the union of the parent-level image URLs and all
variant-level image URLs, independently of input order. -/
theorem C9_image_dedup (p : SupplierProduct) :
    (uniqueImages p).Nodup ∧
    (uniqueImages p).toFinset =
      p.imagenesPadre.toFinset ∪ (p.hijos.flatMap (fun h => h.imagenesHijo)).toFinset := by
  constructor
  · exact (allImages p).nodup_dedup
  · ext x
    simp [uniqueImages, allImages, List.mem_dedup]

/-- C10: a product limit of 0 is falsy in `if product_limit:`, so it is
ignored: the whole catalog is processed and the run coincides with the
no-limit run. -/
theorem C10_zero_limit_ignored (sink : Sink) (ps : List SupplierProduct) :
    productsToProcess (some 0) ps = ps ∧
    runFullSync sink (some 0) ps = runFullSync sink none ps := by
  constructor <;> simp [productsToProcess, runFullSync]

/-- C4: for an existing destination product, a price update for a
destination variant is emitted exactly when some active supplier SKU is
bound to it in the destination dict and the fresh price differs from the
stored price by more than the 0.01 tolerance; the emitted update carries
the freshly computed (unrounded) price. -/
theorem C4_update_iff (vs : List DestVariant) (active : List (String × SupplierVariant))
    (vid : String) (q : ℚ) :
    Op.updatePrice vid q ∈ reconcileFound vs active ↔
      ∃ kv ∈ active, ∃ dv, dictGet (dictOf (fun v => v.sku) vs) kv.1 = some dv ∧
        vid = dv.id ∧ q = computeNewPrice kv.2.precio ∧
        (1 / 100 : ℚ) < |dv.price - q| := by
  unfold reconcileFound
  rw [List.mem_append]
  constructor
  · rintro (h | h)
    · rcases mem_updateOps.mp h with ⟨kv, hkv, dv, hget, hvid, hq, hc⟩
      exact ⟨kv, hkv, dv, hget, hvid, hq, by rw [hq]; exact hc⟩
    · rcases mem_deleteOps_shape h with ⟨pid, vid2, heq⟩
      simp at heq
  · rintro ⟨kv, hkv, dv, hget, hvid, hq, hc⟩
    left
    exact mem_updateOps.mpr ⟨kv, hkv, dv, hget, hvid, hq, by rw [← hq]; exact hc⟩

/-- C5: for an existing destination product, a variant deletion is emitted
exactly for the destination variants whose SKU is not an active supplier
SKU (the set difference of the destination SKUs and the active SKUs); a
destination variant whose SKU is active is never deleted. -/
theorem C5_delete_iff (vs : List DestVariant) (active : List (String × SupplierVariant))
    (pid vid : String) :
    Op.deleteVariant pid vid ∈ reconcileFound vs active ↔
      ∃ sku dv, dictGet (dictOf (fun v => v.sku) vs) sku = some dv ∧
        sku ∉ dictKeys active ∧ pid = dv.product_id ∧ vid = dv.id := by
  unfold reconcileFound
  rw [List.mem_append]
  constructor
  · rintro (h | h)
    · rcases mem_updateOps_shape h with ⟨vid2, q2, heq⟩
      simp at heq
    · rcases mem_deleteOps.mp h with ⟨kv, hkv, hnot, h1, h2⟩
      exact ⟨kv.1, kv.2,
        mem_dictGet_of_nodup (nodup_dictKeys_dictOf _ _) (by simpa using hkv),
        hnot, h1, h2⟩
  · rintro ⟨sku, dv, hget, hnot, h1, h2⟩
    right
    exact mem_deleteOps.mpr ⟨(sku, dv), dictGet_eq_some_mem hget, hnot, h1, h2⟩

/-- A supplier variant with status active, used as concrete test data
(base price 60, so the transformed price is exactly 77). -/
def hijoActiveA : SupplierVariant :=
  { skuHijo := "A"
    precio := RawPrice.num 60
    estatus := "1"
    color := "RED"
    imagenesHijo := [] }

/-- A supplier variant with status inactive, used as concrete test data
(base price 120, so the transformed price is exactly 154). -/
def hijoInactiveB : SupplierVariant :=
  { skuHijo := "B"
    precio := RawPrice.num 120
    estatus := "0"
    color := "BLUE"
    imagenesHijo := [] }

/-- A supplier product with one active and one inactive variant. -/
def mixedProduct : SupplierProduct :=
  { nombrePadre := "P"
    descripcion := "D"
    categorias := "C"
    subCategorias := "S"
    imagenesPadre := []
    hijos := [hijoActiveA, hijoInactiveB] }

/-- C2 counterexample: with an empty destination, reconciling
`mixedProduct` emits exactly one create, but the created payload contains
the variant with SKU B even though B is not an active supplier SKU — so
the created product does not consist of exactly the active variants. -/
theorem C2_counterexample :
    reconcileProduct (fun _ => none) (fun _ => []) mixedProduct =
      [Op.createProduct mixedProduct] ∧
    "B" ∈ (createProductPayload mixedProduct).variants.map (fun v => v.sku) ∧
    "B" ∉ dictKeys (supplierVariantsActive mixedProduct) := by
  decide

/-- C2 (amended): when the probe SKU is not found in the destination,
exactly one CreateProduct operation is emitted, and the created product
contains all of the supplier product's variants — active and inactive
alike — in child-list order, with the transformed two-decimal prices. -/
theorem C2_create_emits_full_product (findSku : String → Option FoundInfo)
    (variantsOf : String → List DestVariant) (p : SupplierProduct)
    (kv : String × SupplierVariant)
    (hhead : (supplierVariantsActive p).head? = some kv)
    (hfind : findSku kv.1 = none) :
    reconcileProduct findSku variantsOf p = [Op.createProduct p] ∧
    (createProductPayload p).variants.map (fun v => v.sku) =
      p.hijos.map (fun h => h.skuHijo) ∧
    (createProductPayload p).variants.map (fun v => v.price) =
      p.hijos.map (fun h => round2 (finalPriceOfHijo h.precio)) := by
  refine ⟨?_, ?_, ?_⟩
  · unfold reconcileProduct
    rw [hhead]
    simp only
    rw [hfind]
  · simp [createProductPayload, mkCreatedVariant, List.map_map, Function.comp]
  · simp [createProductPayload, mkCreatedVariant, List.map_map, Function.comp]

/-- Witness for C2 at `mixedProduct` with an empty destination. -/
theorem C2_create_emits_full_product_witness :
    ((supplierVariantsActive mixedProduct).head? = some ("A", hijoActiveA) ∧
      (fun _ : String => (none : Option FoundInfo)) "A" = none) ∧
    (reconcileProduct (fun _ => none) (fun _ => []) mixedProduct =
        [Op.createProduct mixedProduct] ∧
      (createProductPayload mixedProduct).variants.map (fun v => v.sku) =
        mixedProduct.hijos.map (fun h => h.skuHijo) ∧
      (createProductPayload mixedProduct).variants.map (fun v => v.price) =
        mixedProduct.hijos.map (fun h => round2 (finalPriceOfHijo h.precio))) :=
  ⟨⟨by decide, rfl⟩,
    C2_create_emits_full_product (fun _ => none) (fun _ => []) mixedProduct
      ("A", hijoActiveA) (by decide) rfl⟩

/-- C6: a supplier product with no active variant is skipped: the product
loop records it with an empty operation list without touching the
destination (this holds for an arbitrary sink, including one whose lookup
always raises), and the pure reconciler emits no operation for it. -/
theorem C6_inactive_skipped (sink : Sink) (p : SupplierProduct)
    (h : ∀ hijo ∈ p.hijos, hijo.estatus ≠ "1") :
    processProducts sink [p] = ([(p, [])], false) ∧
    ∀ (f : String → Option FoundInfo) (g : String → List DestVariant),
      reconcileProduct f g p = [] := by
  have hact : supplierVariantsActive p = [] := by
    unfold supplierVariantsActive
    have hfil : p.hijos.filter (fun h2 => h2.estatus == "1") = [] := by
      rw [List.filter_eq_nil_iff]
      intro a ha
      simpa using h a ha
    rw [hfil]
    rfl
  constructor
  · simp [processProducts, hact]
  · intro f g
    unfold reconcileProduct
    rw [hact]
    rfl

/-- A destination sink whose lookups never raise and whose operations all
succeed. -/
def demoSink : Sink :=
  { findSku := fun _ => Except.ok none
    variantsOf := fun _ => []
    createOk := fun _ => true
    updateOk := fun _ _ => true
    deleteOk := fun _ _ => true }

/-- The same destination sink, but every create, update and delete fails. -/
def demoSinkFail : Sink :=
  { findSku := fun _ => Except.ok none
    variantsOf := fun _ => []
    createOk := fun _ => false
    updateOk := fun _ _ => false
    deleteOk := fun _ _ => false }

/-- A supplier product whose only variant is inactive. -/
def inactiveOnlyProduct : SupplierProduct :=
  { nombrePadre := "Q"
    descripcion := "D"
    categorias := "C"
    subCategorias := "S"
    imagenesPadre := []
    hijos := [hijoInactiveB] }

/-- Witness for C6 at `inactiveOnlyProduct` with the demo sink. -/
theorem C6_inactive_skipped_witness :
    (∀ hijo ∈ inactiveOnlyProduct.hijos, hijo.estatus ≠ "1") ∧
    (processProducts demoSink [inactiveOnlyProduct] = ([(inactiveOnlyProduct, [])], false) ∧
      ∀ (f : String → Option FoundInfo) (g : String → List DestVariant),
        reconcileProduct f g inactiveOnlyProduct = []) :=
  ⟨by decide, C6_inactive_skipped demoSink inactiveOnlyProduct (by decide)⟩

/-- C3: the orchestrator never inspects create/update/delete outcomes, so
two sinks agreeing on lookups produce identical operation traces however
their operations fail; and as long as the SKU lookup does not raise, every
product of the run is processed and the run ends without the critical
abort — per-product failures never stop the run. -/
theorem C3_failures_do_not_abort (s1 s2 : Sink)
    (hf : s1.findSku = s2.findSku) (hv : s1.variantsOf = s2.variantsOf)
    (hok : ∀ sku, exceptOk (s1.findSku sku) = true) (ps : List SupplierProduct) :
    (processProducts s1 ps).1.map (fun e => (e.1, e.2.map Prod.fst)) =
      (processProducts s2 ps).1.map (fun e => (e.1, e.2.map Prod.fst)) ∧
    (processProducts s1 ps).1.map Prod.fst = ps ∧
    (processProducts s1 ps).2 = false ∧
    (processProducts s2 ps).2 = false := by
  induction ps with
  | nil => simp [processProducts]
  | cons p rest ih =>
      obtain ⟨ih1, ih2, ih3, ih4⟩ := ih
      cases hh : (supplierVariantsActive p).head? with
      | none => simp [processProducts, hh, ih1, ih2, ih3, ih4]
      | some kv =>
          cases hfind : s1.findSku kv.1 with
          | error e =>
              exfalso
              have hcontra := hok kv.1
              rw [hfind] at hcontra
              simp [exceptOk] at hcontra
          | ok found =>
              have hfind2 : s2.findSku kv.1 = Except.ok found := by
                rw [← hf]; exact hfind
              simp [processProducts, hh, hfind, hfind2, ← hv, ih1, ih2, ih3, ih4,
                List.map_map, Function.comp]

/-- Witness for C3: same sink lookups, all operations succeeding versus
all operations failing, over a one-product catalog. -/
theorem C3_failures_do_not_abort_witness :
    (demoSink.findSku = demoSinkFail.findSku ∧
      demoSink.variantsOf = demoSinkFail.variantsOf ∧
      ∀ sku, exceptOk (demoSink.findSku sku) = true) ∧
    ((processProducts demoSink [mixedProduct]).1.map (fun e => (e.1, e.2.map Prod.fst)) =
        (processProducts demoSinkFail [mixedProduct]).1.map (fun e => (e.1, e.2.map Prod.fst)) ∧
      (processProducts demoSink [mixedProduct]).1.map Prod.fst = [mixedProduct] ∧
      (processProducts demoSink [mixedProduct]).2 = false ∧
      (processProducts demoSinkFail [mixedProduct]).2 = false) :=
  ⟨⟨rfl, rfl, fun _ => rfl⟩,
    C3_failures_do_not_abort demoSink demoSinkFail rfl rfl (fun _ => rfl) [mixedProduct]⟩

/-- Rounding a rational that is already an integer to two decimals is the
identity. -/
theorem round2_intCast (n : ℤ) : round2 ((n : ℚ)) = (n : ℚ) := by
  unfold round2
  have h : ((n : ℚ) * 100) = ((n * 100 : ℤ) : ℚ) := by push_cast; ring
  rw [h, round_intCast]
  push_cast
  rw [mul_div_cancel_right₀]
  norm_num

/-- The destination state after the first run's create of `mixedProduct`
was applied successfully: both hijos, with wire-formatted prices, under
one product id. -/
def destAfterCreate : List DestVariant :=
  [ { id := "v1"
      product_id := "p1"
      sku := "A"
      price := 77 },
    { id := "v2"
      product_id := "p1"
      sku := "B"
      price := 154 } ]

/-- C7 counterexample: `destAfterCreate` is exactly the applied first-run
create of `mixedProduct` (every destination variant mirrors a hijo with
its transformed two-decimal price), yet the second run is not clean: it
emits a DeleteVariant for the inactive SKU B that the create included. -/
theorem C7_counterexample :
    (∀ dv ∈ destAfterCreate, ∃ hijo ∈ mixedProduct.hijos,
        dv.sku = hijo.skuHijo ∧ dv.price = round2 (finalPriceOfHijo hijo.precio)) ∧
    reconcileFound destAfterCreate (supplierVariantsActive mixedProduct) =
      [Op.deleteVariant "p1" "v2"] := by
  have h77 : round2 (finalPriceOfHijo hijoActiveA.precio) = 77 := by
    have hval : finalPriceOfHijo hijoActiveA.precio = ((77 : ℤ) : ℚ) := by
      norm_num [finalPriceOfHijo, hijoActiveA]
    rw [hval, round2_intCast]
    norm_num
  have h154 : round2 (finalPriceOfHijo hijoInactiveB.precio) = 154 := by
    have hval : finalPriceOfHijo hijoInactiveB.precio = ((154 : ℤ) : ℚ) := by
      norm_num [finalPriceOfHijo, hijoInactiveB]
    rw [hval, round2_intCast]
    norm_num
  constructor
  · intro dv hdv
    rcases List.mem_cons.mp hdv with h | hdv2
    · exact ⟨hijoActiveA, by simp [mixedProduct], by rw [h]; rfl, by rw [h, h77]⟩
    · rcases List.mem_cons.mp hdv2 with h | h
      · exact ⟨hijoInactiveB, by simp [mixedProduct], by rw [h]; rfl, by rw [h, h154]⟩
      · simp at h
  · have hact : supplierVariantsActive mixedProduct = [("A", hijoActiveA)] := by decide
    have hnew : computeNewPrice hijoActiveA.precio = 77 := by
      norm_num [computeNewPrice, hijoActiveA]
    have hget : dictGet (dictOf (fun v => v.sku) destAfterCreate) "A" =
        some { id := "v1", product_id := "p1", sku := "A", price := 77 } := by
      decide
    have hupd : updateOps (dictOf (fun v => v.sku) destAfterCreate)
        [("A", hijoActiveA)] = [] := by
      unfold updateOps
      rw [List.filterMap_eq_nil_iff]
      intro kv hkv
      rcases List.mem_singleton.mp hkv with rfl
      rw [show (("A", hijoActiveA) : String × SupplierVariant).1 = "A" from rfl, hget]
      simp only
      rw [if_neg]
      rw [not_lt, hnew]
      norm_num
    have hdel : deleteOps (dictOf (fun v => v.sku) destAfterCreate)
        [("A", hijoActiveA)] = [Op.deleteVariant "p1" "v2"] := by
      decide
    rw [hact]
    unfold reconcileFound
    rw [hupd, hdel]
    rfl

/-- C7 (amended): a second run emits zero update and zero delete
operations provided the destination's stored prices are the two-decimal
roundings of the recomputed prices and every destination SKU is an active
supplier SKU — which holds after applying a first run's updates and
deletes, but not right after a create of a product with inactive variants
(the create includes them, and the second run then deletes them); the
two-decimal rounding always stays within the 0.01 tolerance. -/
theorem C7_second_run_idempotent (vs : List DestVariant)
    (active : List (String × SupplierVariant))
    (hprice : ∀ kv ∈ active, ∀ dv ∈ vs, dv.sku = kv.1 →
        dv.price = round2 (computeNewPrice kv.2.precio))
    (hsku : ∀ dv ∈ vs, dv.sku ∈ dictKeys active) :
    (∀ q : ℚ, |round2 q - q| ≤ 1 / 100) ∧ reconcileFound vs active = [] := by
  have hround : ∀ q : ℚ, |round2 q - q| ≤ 1 / 100 := by
    intro q
    have h1 := abs_sub_round (q * 100 : ℚ)
    rw [abs_sub_comm] at h1
    unfold round2
    have h2 : ((round (q * 100) : ℤ) : ℚ) / 100 - q =
        (((round (q * 100) : ℤ) : ℚ) - q * 100) / 100 := by ring
    rw [h2, abs_div]
    have h3 : |(100 : ℚ)| = 100 := by norm_num
    rw [h3]
    linarith
  refine ⟨hround, ?_⟩
  unfold reconcileFound
  have hupd : updateOps (dictOf (fun v => v.sku) vs) active = [] := by
    unfold updateOps
    rw [List.filterMap_eq_nil_iff]
    intro kv hkv
    cases hget : dictGet (dictOf (fun v => v.sku) vs) kv.1 with
    | none => rfl
    | some dv =>
        have hmem := dictGet_eq_some_mem hget
        have helim := mem_dictOf_elim hmem
        have hp := hprice kv hkv dv helim.1 helim.2
        have hle : |dv.price - computeNewPrice kv.2.precio| ≤ 1 / 100 := by
          rw [hp]
          exact hround _
        show (if (1 / 100 : ℚ) < |dv.price - computeNewPrice kv.2.precio| then
            some (Op.updatePrice dv.id (computeNewPrice kv.2.precio))
          else none) = none
        rw [if_neg (not_lt.mpr hle)]
  have hdel : deleteOps (dictOf (fun v => v.sku) vs) active = [] := by
    unfold deleteOps
    have hfil : (dictOf (fun v => v.sku) vs).filter (fun kv => kv.1 ∉ dictKeys active) = [] := by
      rw [List.filter_eq_nil_iff]
      intro kv hkv
      have helim := mem_dictOf_elim hkv
      have hin := hsku kv.2 helim.1
      rw [helim.2] at hin
      simp [hin]
    rw [hfil]
    rfl
  rw [hupd, hdel]
  rfl

/-- A destination state holding exactly the active variant of
`mixedProduct` at its wire-formatted price. -/
def destClean : List DestVariant :=
  [ { id := "v1"
      product_id := "p1"
      sku := "A"
      price := 77 } ]

/-- The first hypothesis of the amended C7 claim holds at the concrete
clean destination: its stored price is the rounded recomputed price. -/
theorem destClean_price_ok :
    ∀ kv ∈ supplierVariantsActive mixedProduct, ∀ dv ∈ destClean, dv.sku = kv.1 →
      dv.price = round2 (computeNewPrice kv.2.precio) := by
  have hact : supplierVariantsActive mixedProduct = [("A", hijoActiveA)] := by decide
  rw [hact]
  intro kv hkv dv hdv hsku
  rcases List.mem_singleton.mp hkv with rfl
  rcases List.mem_singleton.mp hdv with rfl
  have hval : computeNewPrice (("A", hijoActiveA).2.precio) = ((77 : ℤ) : ℚ) := by
    norm_num [computeNewPrice, hijoActiveA]
  rw [hval, round2_intCast]
  norm_num [destClean]

/-- The second hypothesis of the amended C7 claim holds at the concrete
clean destination: its only SKU is an active supplier SKU. -/
theorem destClean_sku_ok :
    ∀ dv ∈ destClean, dv.sku ∈ dictKeys (supplierVariantsActive mixedProduct) := by
  decide

/-- Witness for C7 at `destClean` and `mixedProduct`'s active dict. -/
theorem C7_second_run_idempotent_witness :
    ((∀ kv ∈ supplierVariantsActive mixedProduct, ∀ dv ∈ destClean, dv.sku = kv.1 →
        dv.price = round2 (computeNewPrice kv.2.precio)) ∧
      (∀ dv ∈ destClean, dv.sku ∈ dictKeys (supplierVariantsActive mixedProduct))) ∧
    ((∀ q : ℚ, |round2 q - q| ≤ 1 / 100) ∧
      reconcileFound destClean (supplierVariantsActive mixedProduct) = []) :=
  ⟨⟨destClean_price_ok, destClean_sku_ok⟩,
    C7_second_run_idempotent destClean (supplierVariantsActive mixedProduct)
      destClean_price_ok destClean_sku_ok⟩

end PromoSync
